import Mathlib

/-!
# Tournament-leaderboard on-chain decoding engine: verification development

Shallow embedding of the repository's event-decoding and attribution engine:

* `Post22m` — the tier-resolution script
  `scripts/pull-wins-tier-from-logs-post22m-lookback.js` (identical inference code
  also appears in the sample70 variant): word extraction, the two tier-inference
  heuristics, the chunked lookback scanner, and the versioned resolution cache.
* `ExtractConcat` — the match/winner joiner from `scripts/extract-matches-from-topic0.js`
  (concatenated at the end of the pull-wins file).
* `ExtractUpdated` — the joiner from `scripts/extract-matches-from-topic0.updated.js`.

Word model: every word handled by these scripts is a canonical lowercase `0x`+64-hex-digit
string (topics are lowercased on extraction, data words are produced lowercase, and the
identifier word is produced by `hex32FromU256` in canonical form).  Canonical 32-byte hex
strings are in bijection with their `uint256` values and string equality coincides with
value equality, so a `Word` is embedded as its numeric value (`Nat`).
`BigInt("0x…")` of such a word is exactly that value.
-/

namespace Tournament

/-- JS `Map.set` on an association list: replace the binding if the key is present,
otherwise append. -/
def alSet {α β : Type} [DecidableEq α] : List (α × β) → α → β → List (α × β)
  | [], k, v => [(k, v)]
  | (a, b) :: rest, k, v =>
    if a = k then (k, v) :: rest else (a, b) :: alSet rest k v

/-- JS `Map.get` on an association list (first binding wins). -/
def alGet {α β : Type} [DecidableEq α] : List (α × β) → α → Option β
  | [], _ => none
  | (a, b) :: rest, k => if a = k then some b else alGet rest k

namespace Post22m

/-- A 32-byte word, identified with its `uint256` value (see the word-model note above). -/
abbrev Word := Nat

/-- `DECODE_VERSION` from `pull-wins-tier-from-logs-post22m-lookback.js`. -/
def DECODE_VERSION : String := "post22m-v1-flexpair"

/-- `wordToSmallInt`: the word's value when it is at most 10 000, otherwise `null`.
(`BigInt` of a canonical hex word never throws and is never negative.) -/
def wordToSmallInt (w : Word) : Option Nat :=
  if w ≤ 10000 then some w else none

/-- The list of indices at which `tidWord` occurs in `words`
(the `tidIdxs` accumulation loop). -/
def tidIdxsOf (words : List Word) (tid : Word) : List Nat :=
  (List.range words.length).filter (fun i => words.getD i 0 == tid)

/-- The index window `[max 0 (tidIdx − 40), min (words.length − 1) (tidIdx + 40)]`
shared by both heuristics (`WINDOW = 40`; `Nat` subtraction supplies the `max 0`). -/
def windowRange (words : List Word) (tidIdx : Nat) : List Nat :=
  List.range' (tidIdx - 40) (min (words.length - 1) (tidIdx + 40) + 1 - (tidIdx - 40))

/-- The `ints` collection of `inferTierFlexPair`: indices in the window whose word
decodes as a small integer at most 30, paired with the decoded value. -/
def minCands (words : List Word) (tidIdx : Nat) : List (Nat × Nat) :=
  (windowRange words tidIdx).filterMap (fun i =>
    match wordToSmallInt (words.getD i 0) with
    | some v => if v ≤ 30 then some (i, v) else none
    | none => none)

/-- The score assigned to an accepted flex pair (source: `score = 10_000 −
distToTid * 80 + exactBonus + spanBonus`, with `distToTid = min |minIdx − tidIdx|
|maxIdx − tidIdx|`, `exactBonus = 25` when `min = max`, `spanBonus = SPAN − (maxIdx −
minIdx)`, `SPAN = 14`). -/
def flexScore (tidIdx i j minv maxv : Nat) : Int :=
  10000 - (min (Nat.dist i tidIdx) (Nat.dist j tidIdx) : Int) * 80
    + (if minv = maxv then 25 else 0) + (14 - ((j : Int) - (i : Int)))

/-- The inner `j` loop of `inferTierFlexPair` for one min candidate `a = (idx, v)`:
scan forward up to `SPAN = 14` words (clipped to the window end) for a word decoding to
exactly 10 or 20, and accept when `min ≤ max` and `max − min ≤ MAX_DRIFT = 4`. -/
def pairCands (words : List Word) (tidIdx : Nat) (a : Nat × Nat) : List (Int × Nat) :=
  (List.range' (a.1 + 1)
      (min (min (words.length - 1) (tidIdx + 40)) (a.1 + 14) + 1 - (a.1 + 1))).filterMap
    (fun j =>
      match wordToSmallInt (words.getD j 0) with
      | some mv =>
        if (mv = 10 ∨ mv = 20) ∧ a.2 ≤ mv ∧ mv - a.2 ≤ 4 then
          some (flexScore tidIdx a.1 j a.2 mv, mv)
        else none
      | none => none)

/-- All accepted scored pairs, in the source's iteration order
(identifier occurrences outermost, then min candidates, then the forward scan). -/
def flexCandidates (words : List Word) (tid : Word) : List (Int × Nat) :=
  (tidIdxsOf words tid).flatMap (fun tidIdx =>
    (minCands words tidIdx).flatMap (pairCands words tidIdx))

/-- The `best` update of the source loop: keep the incumbent unless the new score is
strictly greater (`score > best.score`). -/
def bestStep (best : Option (Int × Nat)) (c : Int × Nat) : Option (Int × Nat) :=
  match best with
  | none => some c
  | some b => if b.1 < c.1 then some c else some b

/-- Fold of `bestStep` over a candidate list starting from `null`. -/
def bestOf (l : List (Int × Nat)) : Option (Int × Nat) :=
  l.foldl bestStep none

/-- `inferTierFlexPair`: the tier (`max` component) of the best-scoring accepted pair,
or `null` when no pair is accepted (in particular when the identifier is absent). -/
def inferTierFlexPair (words : List Word) (tid : Word) : Option Nat :=
  (bestOf (flexCandidates words tid)).map (·.2)

/-- `inferTierNearestUnambiguous`: per identifier occurrence, look at the ±40 window;
if both 10 and 20 occur there, skip the occurrence (`continue`); if exactly one occurs,
return it (the source's final scan returns the first occurrence of the target value,
i.e. the target itself). -/
def inferTierNearestUnambiguous (words : List Word) (tid : Word) : Option Nat :=
  (tidIdxsOf words tid).findSome? (fun tidIdx =>
    let idxs := windowRange words tidIdx
    let seen10 := idxs.any (fun i => wordToSmallInt (words.getD i 0) == some 10)
    let seen20 := idxs.any (fun i => wordToSmallInt (words.getD i 0) == some 20)
    if seen10 && seen20 then none
    else
      match (if seen10 then some 10 else if seen20 then some 20 else none : Option Nat) with
      | none => none
      | some target =>
        idxs.findSome? (fun i =>
          if wordToSmallInt (words.getD i 0) = some target then some target else none))

/-- The engine's combination in the scan loop: try the flex-pair heuristic first, and
fall back to the nearest-unambiguous heuristic when it does not yield 10 or 20. -/
def resolveTier (words : List Word) (tid : Word) : Option Nat :=
  let t1 := inferTierFlexPair words tid
  if t1 = some 10 ∨ t1 = some 20 then t1 else inferTierNearestUnambiguous words tid

/-- Acceptance conditions for a flex pair, read off the guards of the
`inferTierFlexPair` loops: `tidIdx` is an identifier occurrence, `i` a min-candidate
index inside its ±40 window with decoded value `minv ≤ 30`, `j` a forward index at most
14 past `i` (clipped to the window end) whose decoded value `maxv` is exactly 10 or 20,
with `minv ≤ maxv` and `maxv − minv ≤ 4` (the tight-bracket constraint). -/
def FlexAccepted (words : List Word) (tid : Word) (tidIdx i j minv maxv : Nat) : Prop :=
  tidIdx < words.length ∧ words.getD tidIdx 0 = tid ∧
  tidIdx - 40 ≤ i ∧ i ≤ min (words.length - 1) (tidIdx + 40) ∧
  wordToSmallInt (words.getD i 0) = some minv ∧ minv ≤ 30 ∧
  i < j ∧ j ≤ min (min (words.length - 1) (tidIdx + 40)) (i + 14) ∧
  wordToSmallInt (words.getD j 0) = some maxv ∧
  (maxv = 10 ∨ maxv = 20) ∧ minv ≤ maxv ∧ maxv - minv ≤ 4

instance instDecidableFlexAccepted (words : List Word) (tid : Word) (tidIdx i j minv maxv : Nat) :
    Decidable (FlexAccepted words tid tidIdx i j minv maxv) := by
  unfold FlexAccepted; infer_instance

/-- Input refuting the literal reading of the no-guess claim: the identifier (word value
99999) occurs at indices 10 and 55; the window of the occurrence at index 10 contains
both a 10 (index 45) and a 20 (index 0), but the window of the occurrence at index 55
contains only the 10, and no flex pair is accepted anywhere. -/
def c2words : List Word :=
  (List.range 56).map (fun i =>
    if i = 0 then 20 else if i = 10 then 99999 else
    if i = 45 then 10 else if i = 55 then 99999 else 0)

/-- A retrieved log as the scanner consumes it: topic words, data words (the 32-byte
chunks of the data payload) and the block number.  `extractWordsFromLog` flattens
topics followed by data words; in the word-value model the lowercasing is the
identity. -/
structure Log where
  topics : List Word
  data : List Word
  blockNumber : Int
deriving DecidableEq, Repr

/-- `extractWordsFromLog`: topics (lowercased) followed by the split data words. -/
def extractWordsFromLog (log : Log) : List Word :=
  log.topics ++ log.data

/-- The result record of `findTierByLookback`.  The success return carries no `error`
field (`none`), the exhaustion return `{tier: null, matchedBlock: null}` likewise, and
the failure return carries the stringified error. -/
structure ScanResult where
  tier : Option Nat
  matchedBlock : Option Int
  error : Option String
deriving DecidableEq, Repr

/-- The per-log body of the scan loop: skip the log unless the identifier word occurs
among its words; run the flex-pair heuristic then the fallback; report the tier and the
log's block number when the tier is 10 or 20. -/
def logHit (tid : Word) (log : Log) : Option (Nat × Int) :=
  let words := extractWordsFromLog log
  if tid ∈ words then
    match resolveTier words tid with
    | some t => if t = 10 ∨ t = 20 then some (t, log.blockNumber) else none
    | none => none
  else none

/-- One chunk's inner loop: logs are processed from the last array element to the
first (newest to oldest), returning the first hit. -/
def chunkHit (tid : Word) (logs : List Log) : Option (Nat × Int) :=
  logs.reverse.findSome? (logHit tid)

/-- The chunk loop of `findTierByLookback`, with explicit fuel (the source loop
`for (toBlock = end; toBlock >= start; toBlock -= chunk)` terminates because
`chunk ≥ 1`; callers pass fuel bounding the iteration count).  A failed `getLogs`
call returns immediately with the error; a hit returns immediately with tier and
block; otherwise the loop steps `chunk` blocks down. -/
def scanAux (getLogs : Int → Int → Except String (List Log)) (tid : Word)
    (start : Int) (chunk : Nat) : Nat → Int → ScanResult
  | 0, _ => ⟨none, none, none⟩
  | fuel + 1, toBlock =>
    if toBlock < start then ⟨none, none, none⟩
    else
      match getLogs (max start (toBlock - chunk + 1)) toBlock with
      | .error e => ⟨none, none, some e⟩
      | .ok logs =>
        match chunkHit tid logs with
        | some (t, blk) => ⟨some t, some blk, none⟩
        | none => scanAux getLogs tid start chunk fuel (toBlock - chunk)

/-- `findTierByLookback`: scan `[max 0 (winBlock − lookback), winBlock]` in chunks of
`chunk` blocks from the most recent chunk toward the oldest (`Nat` subtraction supplies
the `max 0`; `winBlock + 1` iterations always suffice when `chunk ≥ 1`).  The
identifier's canonical word equals the identifier value in the word model. -/
def findTierByLookback (getLogs : Int → Int → Except String (List Log))
    (tournamentId : Word) (winBlock lookback chunk : Nat) : ScanResult :=
  scanAux getLogs tournamentId ((winBlock - lookback : Nat) : Int) chunk
    (winBlock + 1) (winBlock : Int)

/-- The sequence of `(fromBlock, toBlock)` ranges the scan loop queries, in its
iteration order (most recent chunk first); same fuel discipline as `scanAux`. -/
def chunkList (start : Int) (chunk : Nat) : Nat → Int → List (Int × Int)
  | 0, _ => []
  | fuel + 1, toBlock =>
    if toBlock < start then []
    else (max start (toBlock - chunk + 1), toBlock) :: chunkList start chunk fuel (toBlock - chunk)

/-- The scan expressed as a fold over an explicit chunk-range list (proof vehicle
connecting `scanAux` to `chunkList`). -/
def scanChunks (getLogs : Int → Int → Except String (List Log)) (tid : Word) :
    List (Int × Int) → ScanResult
  | [] => ⟨none, none, none⟩
  | p :: rest =>
    match getLogs p.1 p.2 with
    | .error e => ⟨none, none, some e⟩
    | .ok logs =>
      match chunkHit tid logs with
      | some (t, blk) => ⟨some t, some blk, none⟩
      | none => scanChunks getLogs tid rest

/-- Modelled from the spec's wording for the scan order: the single logical stream of
logs the scanner inspects — chunks from the most recent toward the oldest, and within a
chunk logs from newest to oldest. -/
def scanStreamSpec (logsFn : Int → Int → List Log) (start : Int) (chunk : Nat)
    (fuel : Nat) (toBlock : Int) : List Log :=
  ((chunkList start chunk fuel toBlock).map (fun p => (logsFn p.1 p.2).reverse)).flatten

/-- Index of the first chunk range (in scan order) whose log list contains a
tier-yielding log, or the list length when none does. -/
def firstHitChunkIdx (logsFn : Int → Int → List Log) (tid : Word)
    (ranges : List (Int × Int)) : Nat :=
  ranges.findIdx (fun p => (chunkHit tid (logsFn p.1 p.2)).isSome)

/-! ### Resolution cache (`loadTierCache`, the cache-hit check and the write-back
of `main`) -/

/-- A cache-entry object as stored in `tournament-tier-cache.json`: each field is
optional (`none` models both JSON `null` and an absent key, which the script reads
back as `undefined`). -/
structure RawObj where
  tier : Option Int := none
  matchedBlock : Option Int := none
  resolvedAtUtc : Option String := none
  method : Option String := none
  anchorWinBlock : Option Int := none
  error : Option String := none
  decodeVersion : Option String := none
deriving DecidableEq, Repr

/-- A raw JSON value found under a cache key: a bare number, an object of the engine's
shape, or anything else (string, boolean, array, null — none of whose fields the
script ever reads). -/
inductive CacheVal where
  | num (n : Int)
  | obj (o : RawObj)
  | other
deriving DecidableEq, Repr

/-- The shapes `loadTierCache` distinguishes in the raw cache file: not an object at
all; an object with a `byTournamentId` object (returned as-is); or a legacy top-level
map from keys to values. -/
inductive RawCacheFile where
  | notObj
  | withMap (m : List (String × CacheVal))
  | legacy (m : List (String × CacheVal))
deriving DecidableEq, Repr

/-- The `/^\d+$/` key test of the migration loop. -/
def isAllDigits (s : String) : Bool :=
  s ≠ "" && s.all Char.isDigit

/-- JS `a || b` for an optional string: the fallback is used when the value is absent
or the empty string (both falsy). -/
def jsOr (a : Option String) (b : String) : String :=
  match a with
  | some s => if s = "" then b else s
  | none => b

/-- The per-value migration of `loadTierCache`: a bare 10 or 20 becomes a
`migrated/flat-number` entry with sentinel `decodeVersion = "unknown"`; an object is
normalized field by field (`decodeVersion` defaulting to `"unknown"`); anything else
is dropped.  `now` stands for `new Date().toISOString()`. -/
def migrateVal (now : String) : CacheVal → Option RawObj
  | .num n =>
    if n = 10 ∨ n = 20 then
      some { tier := some n, matchedBlock := none, resolvedAtUtc := some now,
             method := some "migrated/flat-number", decodeVersion := some "unknown" }
    else none
  | .obj v =>
    some { tier := if v.tier = some 10 ∨ v.tier = some 20 then v.tier else none,
           matchedBlock := v.matchedBlock,
           resolvedAtUtc := some (jsOr v.resolvedAtUtc now),
           method := some (jsOr v.method "migrated/object"),
           anchorWinBlock := v.anchorWinBlock,
           error := v.error,
           decodeVersion := some (jsOr v.decodeVersion "unknown") }
  | .other => none

/-- `loadTierCache`: returns the `byTournamentId` map.  A non-object file yields the
empty map; a file already carrying `byTournamentId` is passed through unmigrated; a
legacy top-level map is migrated entry-wise, keeping only all-digit keys. -/
def loadTierCache (now : String) : RawCacheFile → List (String × CacheVal)
  | .notObj => []
  | .withMap m => m
  | .legacy m =>
    m.filterMap (fun kv =>
      if isAllDigits kv.1 then (migrateVal now kv.2).map (fun e => (kv.1, .obj e))
      else none)

/-- `cached?.tier`: reading `.tier` from a cache value (undefined on a bare number or
other shape, and on a missing entry). -/
def cachedTierOf : Option CacheVal → Option Int
  | some (.obj o) => o.tier
  | _ => none

/-- `cached?.decodeVersion`. -/
def cachedVersionOf : Option CacheVal → Option String
  | some (.obj o) => o.decodeVersion
  | _ => none

/-- `cached?.error`. -/
def cachedErrorOf : Option CacheVal → Option String
  | some (.obj o) => o.error
  | _ => none

/-- The cache-hit test of the main loop:
`USE_CACHE && (cachedTier === 10 || cachedTier === 20) &&
cached?.decodeVersion === DECODE_VERSION`. -/
def isCacheHit (useCache : Bool) (cached : Option CacheVal) : Bool :=
  useCache &&
    (cachedTierOf cached == some 10 || cachedTierOf cached == some 20) &&
    (cachedVersionOf cached == some DECODE_VERSION)

/-- The entry the main loop writes back after a scan: the success branch (tier 10/20)
records tier, matched block and the current decode version (and no `error` key);
the other branch records a null tier, the scan's error (or null) and the same decode
version. -/
def entryFromScan (found : ScanResult) (winBlock : Int) (now : String) : RawObj :=
  if found.tier = some 10 ∨ found.tier = some 20 then
    { tier := found.tier.map Int.ofNat, matchedBlock := found.matchedBlock,
      anchorWinBlock := some winBlock, method := some "logs/lookback",
      resolvedAtUtc := some now, decodeVersion := some DECODE_VERSION }
  else
    { tier := none, matchedBlock := none,
      anchorWinBlock := some winBlock, method := some "logs/lookback",
      resolvedAtUtc := some now, decodeVersion := some DECODE_VERSION,
      error := found.error }

/-- A stored entry with tier 10 under the current decode version (witness input). -/
def entryHit10 : CacheVal :=
  .obj { tier := some 10, decodeVersion := some DECODE_VERSION }

/-- A stored entry with tier 10 under the migration sentinel version (witness input). -/
def entryOldVersion : CacheVal :=
  .obj { tier := some 10, decodeVersion := some "unknown" }

/-- A stored null-tier entry under the current decode version (witness input). -/
def entryNullTier : CacheVal :=
  .obj { tier := none, decodeVersion := some DECODE_VERSION }

/-- One iteration of the main resolution loop over a tournament id: skip the scan on a
cache hit, otherwise overwrite the entry with the scan's write-back record (`found` is
the scan result used on the miss path). -/
def processTid (useCache : Bool) (cache : List (String × CacheVal)) (tid : String)
    (winBlock : Int) (found : ScanResult) (now : String) : List (String × CacheVal) :=
  if isCacheHit useCache (alGet cache tid) then cache
  else alSet cache tid (.obj (entryFromScan found winBlock now))

end Post22m

namespace ExtractConcat

/-- `wordToSmallInt` of `extract-matches-from-topic0.js` (the copy concatenated at the
end of the pull-wins file): the value when at most 1 000 000, otherwise `null`. -/
def wordToSmallInt (w : Nat) : Option Nat :=
  if w ≤ 1000000 then some w else none

/-- `topicToAddress`: an address only when the first 12 bytes are zero (value below
`2^160`) and the 20-byte tail is nonzero; otherwise `null`. -/
def topicToAddress (w : Nat) : Option Nat :=
  if w < 2 ^ 160 ∧ w ≠ 0 then some w else none

/-- A log as this joiner consumes it (topic words, data words, transaction hash,
block number, log index; hashes are canonical lowercase). -/
structure Log where
  topics : List Nat
  data : List Nat
  txHash : String
  blockNumber : Int
  logIndex : Nat
deriving DecidableEq, Repr

/-- The secondary flag word of a hint log: data word 1, decoded small
(`words[1] ? wordToSmallInt(words[1]) : null`). -/
def hintFlag (log : Log) : Option Nat :=
  (log.data[1]?).bind wordToSmallInt

/-- Pass 1 guards and key/value extraction for one hint log: the match id topic must
be present and nonzero (JS `!matchIdBI` is true for `0n`), the wallet topic must be a
valid address, the flag word must decode and equal the confirmed sentinel 1; the key
is the composite `(txHash, matchId)` and the value the hinted wallet. -/
def validHint (log : Log) : Option ((String × Nat) × Nat) :=
  match log.topics[1]?, (log.topics[2]?).bind topicToAddress, hintFlag log with
  | some mid, some wallet, some flag =>
    if mid = 0 then none
    else if flag ≠ 1 then none
    else some ((log.txHash, mid), wallet)
  | _, _, _ => none

/-- One Pass-1 iteration: index a valid hint under its composite key only when the key
is not yet present (`if (!winnerByTxMatch.has(key)) winnerByTxMatch.set(key, wallet)`:
first-write-wins). -/
def pass1Step (m : List ((String × Nat) × Nat)) (log : Log) :
    List ((String × Nat) × Nat) :=
  match validHint log with
  | none => m
  | some (key, wallet) => if alGet m key = none then alSet m key wallet else m

/-- Pass 1: fold over the hint logs in order. -/
def pass1 (hintLogs : List Log) : List ((String × Nat) × Nat) :=
  hintLogs.foldl pass1Step []

/-- Modelled from the spec's wording for the first-write-wins policy: the first valid
hint carrying a given composite key, in hint-log order. -/
def firstValidHint (hintLogs : List Log) (key : String × Nat) : Option Nat :=
  ((hintLogs.filterMap validHint).find? (fun e => e.1 == key)).map (·.2)

/-- A produced match row (`matches.push({...})`). -/
structure MatchRecord where
  matchId : Option Nat
  playerA : Option Nat
  playerB : Option Nat
  resultCode : Option Nat
  winner : Option Nat
  blockNumber : Int
  txHash : String
  logIndex : Nat
deriving DecidableEq, Repr

/-- Pass 2: every match log produces a row; the winner is attached only when the
composite-key lookup succeeds *and* the hinted wallet equals `playerA` or `playerB`
(`if (w && (w === playerA || w === playerB)) winner = w`). -/
def joinConcat (matchLogs hintLogs : List Log) : List MatchRecord :=
  let m := pass1 hintLogs
  matchLogs.map (fun log =>
    let matchIdBI := log.topics[1]?
    let playerA := (log.topics[2]?).bind topicToAddress
    let playerB := (log.topics[3]?).bind topicToAddress
    let resultCode := (log.data[0]?).bind wordToSmallInt
    let winner :=
      match matchIdBI with
      | some mid =>
        if mid = 0 then none
        else
          match alGet m (log.txHash, mid) with
          | some w => if playerA = some w ∨ playerB = some w then some w else none
          | none => none
      | none => none
    { matchId := matchIdBI, playerA := playerA, playerB := playerB,
      resultCode := resultCode, winner := winner,
      blockNumber := log.blockNumber, txHash := log.txHash, logIndex := log.logIndex })

/-- Hint log for the C1 witness: match id 7, hinted wallet 8, flag word 1, tx `"t"`. -/
def c1chint : Log := ⟨[111, 7, 8], [0, 1], "t", 100, 0⟩

/-- Match log for the C1 witness: match id 7, players 8 and 9, tx `"t"`. -/
def c1cmatch : Log := ⟨[222, 7, 8, 9], [1], "t", 101, 1⟩

/-- The row `joinConcat [c1cmatch] [c1chint]` produces. -/
def c1crec : MatchRecord := ⟨some 7, some 8, some 9, some 1, some 8, 101, "t", 1⟩

/-- Flag-0 hint log for the C5 witness: the concatenated joiner ignores it. -/
def c5chint0 : Log := ⟨[111, 7, 8], [0, 0], "t", 100, 0⟩

/-- First valid hint for key `("t", 7)` (winner 8) for the C5 witness. -/
def c5ch1 : Log := ⟨[111, 7, 8], [0, 1], "t", 100, 0⟩

/-- Second valid hint for the same key `("t", 7)` (winner 9) for the C5 witness. -/
def c5ch2 : Log := ⟨[111, 7, 9], [0, 1], "t", 101, 1⟩

end ExtractConcat

namespace ExtractUpdated

/-- `addrFromTopic` of `extract-matches-from-topic0.updated.js`: the last 20 bytes of
the topic, with no zero-prefix or nonzero check (`"0x" + t.slice(-40)`). -/
def addrFromTopic (w : Nat) : Nat :=
  w % 2 ^ 160

/-- A log as this joiner consumes it. -/
structure Log where
  topics : List Nat
  data : List Nat
  txHash : String
  blockNumber : Int
  logIndex : Nat
deriving DecidableEq, Repr

/-- JS `Set.add` on a duplicate-free list. -/
def setAdd (s : List Nat) (x : Nat) : List Nat :=
  if x ∈ s then s else s ++ [x]

/-- One Pass-1 iteration: with topics `[1]` and `[2]` present (`topics.length ≥ 3`; a
present topic is canonical in the word model, so `isHex32Topic` holds), write the
winner into `winnersById` under the id alone via `Map.set` (overwriting any earlier
binding) and add it to the transaction's winner set. -/
def pass1Step (acc : List (Nat × Nat) × List (String × List Nat)) (log : Log) :
    List (Nat × Nat) × List (String × List Nat) :=
  match log.topics[1]?, log.topics[2]? with
  | some idTopic, some winTopic =>
    let winner := addrFromTopic winTopic
    let byId := alSet acc.1 idTopic winner
    let byTx :=
      if log.txHash ≠ "" then
        match alGet acc.2 log.txHash with
        | some s => alSet acc.2 log.txHash (setAdd s winner)
        | none => alSet acc.2 log.txHash [winner]
      else acc.2
    (byId, byTx)
  | _, _ => acc

/-- Pass 1: `winnersById` (id-keyed, last write wins) and `winnersByTx`
(per-transaction set of distinct hinted winners). -/
def pass1 (hintLogs : List Log) : List (Nat × Nat) × List (String × List Nat) :=
  hintLogs.foldl pass1Step ([], [])

/-- A produced match row. -/
structure MatchRecord where
  matchId : Nat
  playerA : Nat
  playerB : Nat
  resultCode : Option Nat
  winner : Option Nat
  blockNumber : Int
  txHash : String
  logIndex : Nat
deriving DecidableEq, Repr

/-- Pass 2: rows only for logs with exactly four topics; winner resolution is the
id-keyed lookup (`winnersById.get(id) || null`) and, on a miss, the transaction-scoped
fallback when the transaction's winner set has exactly one element — neither join
checks the winner against `playerA`/`playerB`. -/
def joinUpdated (matchLogs hintLogs : List Log) : List MatchRecord :=
  let idx := pass1 hintLogs
  matchLogs.filterMap (fun log =>
    if log.topics.length = 4 then
      let id := log.topics.getD 1 0
      let playerA := addrFromTopic (log.topics.getD 2 0)
      let playerB := addrFromTopic (log.topics.getD 3 0)
      let resultCode := log.data[0]?
      let winner :=
        match alGet idx.1 id with
        | some w => some w
        | none =>
          if log.txHash ≠ "" then
            match alGet idx.2 log.txHash with
            | some s => if s.length = 1 then s.head? else none
            | none => none
          else none
      some { matchId := id, playerA := playerA, playerB := playerB,
             resultCode := resultCode, winner := winner,
             blockNumber := log.blockNumber, txHash := log.txHash,
             logIndex := log.logIndex }
    else none)

/-- Hint log for the C1 counterexample: id 7, hinted wallet 5 (not a player). -/
def c1hint : Log := ⟨[111, 7, 5], [], "t", 100, 0⟩

/-- Match log for the C1 counterexample: id 7, players 8 and 9, same tx `"t"`. -/
def c1match : Log := ⟨[222, 7, 8, 9], [1], "t", 101, 1⟩

/-- Hint logs for the C1 witness: two distinct winners (5, 6) hinted in tx `"t"`
under ids 70 and 71. -/
def c1uh1 : Log := ⟨[111, 70, 5], [], "t", 100, 0⟩

/-- Second distinct-winner hint for the C1 witness. -/
def c1uh2 : Log := ⟨[111, 71, 6], [], "t", 100, 1⟩

/-- Match log for the C1 witness: id 7 (missing from the id index), players 8, 9. -/
def c1umatch : Log := ⟨[222, 7, 8, 9], [1], "t", 101, 2⟩

/-- The row `joinUpdated [c1umatch] [c1uh1, c1uh2]` produces. -/
def c1urec : MatchRecord := ⟨7, 8, 9, some 1, none, 101, "t", 2⟩

/-- First hint for the C5 counterexample: id 7, winner 5, flag word 0, tx `"t1"`. -/
def c5h1 : Log := ⟨[111, 7, 5], [0, 0], "t1", 50, 0⟩

/-- Second hint for the C5 counterexample: id 7, winner 6, flag word 0, tx `"t2"`. -/
def c5h2 : Log := ⟨[111, 7, 6], [0, 0], "t2", 51, 0⟩

end ExtractUpdated

/-! ## Theorems -/

theorem alGet_alSet {α β : Type} [DecidableEq α] (m : List (α × β)) (k k' : α) (v : β) :
    alGet (alSet m k v) k' = if k' = k then some v else alGet m k' := by
  induction m with
  | nil =>
    by_cases h : k' = k
    · subst h; simp [alSet, alGet]
    · simp [alSet, alGet, h, Ne.symm h]
  | cons hd tl ih =>
    obtain ⟨a, b⟩ := hd
    by_cases hak : a = k
    · subst hak
      simp only [alSet, if_pos rfl]
      by_cases h : k' = a
      · subst h; simp [alGet]
      · simp [alGet, h, Ne.symm h]
    · simp only [alSet, if_neg hak]
      by_cases h : a = k'
      · have hkk : ¬ k' = k := fun hh => hak (h.trans hh)
        simp [alGet, h, hkk]
      · simp [alGet, h, ih]

namespace Post22m

theorem mem_tidIdxsOf {words : List Word} {tid : Word} {t : Nat} :
    t ∈ tidIdxsOf words tid ↔ t < words.length ∧ words.getD t 0 = tid := by
  simp [tidIdxsOf, List.mem_filter, List.mem_range]

theorem mem_minCands {words : List Word} {tidIdx i v : Nat} :
    (i, v) ∈ minCands words tidIdx ↔
      tidIdx - 40 ≤ i ∧ i ≤ min (words.length - 1) (tidIdx + 40) ∧
      wordToSmallInt (words.getD i 0) = some v ∧ v ≤ 30 := by
  unfold minCands windowRange
  rw [List.mem_filterMap]
  constructor
  · rintro ⟨a, ha, hf⟩
    rw [List.mem_range'_1] at ha
    rcases hw : wordToSmallInt (words.getD a 0) with _ | v'
    · rw [hw] at hf; exact absurd hf (by simp)
    · rw [hw] at hf; dsimp only at hf
      by_cases hv : v' ≤ 30
      · rw [if_pos hv] at hf
        have hpair := Option.some.inj hf
        have hai : a = i := congrArg Prod.fst hpair
        have hvv : v' = v := congrArg Prod.snd hpair
        subst hai; subst hvv
        exact ⟨by omega, by omega, hw, hv⟩
      · rw [if_neg hv] at hf; exact absurd hf (by simp)
  · rintro ⟨h1, h2, hw, hv⟩
    refine ⟨i, ?_, ?_⟩
    · rw [List.mem_range'_1]; omega
    · rw [hw]; dsimp only; rw [if_pos hv]

theorem mem_pairCands {words : List Word} {tidIdx : Nat} {a : Nat × Nat} {s : Int} {m : Nat} :
    (s, m) ∈ pairCands words tidIdx a ↔
      ∃ j, a.1 < j ∧ j ≤ min (min (words.length - 1) (tidIdx + 40)) (a.1 + 14) ∧
        wordToSmallInt (words.getD j 0) = some m ∧ (m = 10 ∨ m = 20) ∧
        a.2 ≤ m ∧ m - a.2 ≤ 4 ∧ s = flexScore tidIdx a.1 j a.2 m := by
  unfold pairCands
  rw [List.mem_filterMap]
  constructor
  · rintro ⟨j, hj, hf⟩
    rw [List.mem_range'_1] at hj
    rcases hw : wordToSmallInt (words.getD j 0) with _ | mv
    · rw [hw] at hf; exact absurd hf (by simp)
    · rw [hw] at hf; dsimp only at hf
      by_cases hc : (mv = 10 ∨ mv = 20) ∧ a.2 ≤ mv ∧ mv - a.2 ≤ 4
      · rw [if_pos hc] at hf
        have hpair := Option.some.inj hf
        have hs : flexScore tidIdx a.1 j a.2 mv = s := congrArg Prod.fst hpair
        have hm : mv = m := congrArg Prod.snd hpair
        subst hm
        exact ⟨j, by omega, by omega, hw, hc.1, hc.2.1, hc.2.2, hs.symm⟩
      · rw [if_neg hc] at hf; exact absurd hf (by simp)
  · rintro ⟨j, h1, h2, hw, hor, hle, hd, hs⟩
    refine ⟨j, ?_, ?_⟩
    · rw [List.mem_range'_1]; omega
    · rw [hw]; dsimp only; rw [if_pos ⟨hor, hle, hd⟩, hs]

theorem mem_flexCandidates {words : List Word} {tid : Word} {s : Int} {m : Nat} :
    (s, m) ∈ flexCandidates words tid ↔
      ∃ tidIdx i j minv, FlexAccepted words tid tidIdx i j minv m ∧
        s = flexScore tidIdx i j minv m := by
  unfold flexCandidates
  rw [List.mem_flatMap]
  constructor
  · rintro ⟨tidIdx, ht, hmem⟩
    rw [List.mem_flatMap] at hmem
    obtain ⟨⟨i, v⟩, ha, hc⟩ := hmem
    rw [mem_minCands] at ha
    rw [mem_pairCands] at hc
    obtain ⟨j, hj1, hj2, hw, hor, hle, hd, hs⟩ := hc
    rw [mem_tidIdxsOf] at ht
    exact ⟨tidIdx, i, j, v,
      ⟨ht.1, ht.2, ha.1, ha.2.1, ha.2.2.1, ha.2.2.2, hj1, hj2, hw, hor, hle, hd⟩, hs⟩
  · rintro ⟨tidIdx, i, j, minv, hacc, hs⟩
    obtain ⟨h1, h2, h3, h4, h5, h6, h7, h8, h9, h10, h11, h12⟩ := hacc
    refine ⟨tidIdx, mem_tidIdxsOf.2 ⟨h1, h2⟩, List.mem_flatMap.2 ⟨(i, minv), ?_, ?_⟩⟩
    · exact mem_minCands.2 ⟨h3, h4, h5, h6⟩
    · exact mem_pairCands.2 ⟨j, h7, h8, h9, h10, h11, h12, hs⟩

theorem foldl_bestStep_some {l : List (Int × Nat)} {a b : Int × Nat}
    (h : l.foldl bestStep (some a) = some b) :
    (b = a ∨ b ∈ l) ∧ a.1 ≤ b.1 ∧ ∀ c ∈ l, c.1 ≤ b.1 := by
  induction l generalizing a with
  | nil =>
    simp only [List.foldl_nil, Option.some.injEq] at h
    exact ⟨Or.inl h.symm, le_of_eq (by rw [h]), by simp⟩
  | cons c tl ih =>
    simp only [List.foldl_cons, bestStep] at h
    by_cases hlt : a.1 < c.1
    · rw [if_pos hlt] at h
      obtain ⟨hmem, hle, hall⟩ := ih h
      refine ⟨?_, le_trans (le_of_lt hlt) hle, ?_⟩
      · rcases hmem with rfl | hm
        · exact Or.inr (List.mem_cons_self _ _)
        · exact Or.inr (List.mem_cons_of_mem _ hm)
      · intro d hd
        rcases List.mem_cons.1 hd with rfl | hd'
        · exact hle
        · exact hall d hd'
    · rw [if_neg hlt] at h
      obtain ⟨hmem, hle, hall⟩ := ih h
      refine ⟨?_, hle, ?_⟩
      · rcases hmem with rfl | hm
        · exact Or.inl rfl
        · exact Or.inr (List.mem_cons_of_mem _ hm)
      · intro d hd
        rcases List.mem_cons.1 hd with rfl | hd'
        · exact le_trans (le_of_not_lt hlt) hle
        · exact hall d hd'

theorem foldl_bestStep_isSome (l : List (Int × Nat)) (a : Int × Nat) :
    (l.foldl bestStep (some a)).isSome = true := by
  induction l generalizing a with
  | nil => rfl
  | cons c tl ih =>
    simp only [List.foldl_cons, bestStep]
    by_cases hlt : a.1 < c.1
    · rw [if_pos hlt]; exact ih c
    · rw [if_neg hlt]; exact ih a

theorem bestOf_eq_none {l : List (Int × Nat)} : bestOf l = none ↔ l = [] := by
  constructor
  · intro h
    cases l with
    | nil => rfl
    | cons c tl =>
      unfold bestOf at h
      simp only [List.foldl_cons, bestStep] at h
      have := foldl_bestStep_isSome tl c
      rw [h] at this
      exact absurd this (by simp)
  · rintro rfl; rfl

theorem bestOf_eq_some {l : List (Int × Nat)} {b : Int × Nat} (h : bestOf l = some b) :
    b ∈ l ∧ ∀ c ∈ l, c.1 ≤ b.1 := by
  cases l with
  | nil => exact absurd h (by simp [bestOf])
  | cons c tl =>
    unfold bestOf at h
    simp only [List.foldl_cons, bestStep] at h
    obtain ⟨hmem, hle, hall⟩ := foldl_bestStep_some h
    constructor
    · rcases hmem with rfl | hm
      · exact List.mem_cons_self _ _
      · exact List.mem_cons_of_mem _ hm
    · intro d hd
      rcases List.mem_cons.1 hd with rfl | hd'
      · exact hle
      · exact hall d hd'

/-- **C6**: Algorithm A (`inferTierFlexPair`) accepts a `(min, max)` pair only under the
`FlexAccepted` conditions — in particular `max` is exactly 10 or 20, `min ≤ max` and
`max − min ≤ 4` — so whenever it returns a tier `t`, `t ∈ {10, 20}` and some accepted
pair has `max = t`; a pair with `max − min > 4` is never selected, e.g. a sequence
containing `min = 1` and `max = 20` at close range never resolves to tier 20 via the
pair `(1, 20)` (second conjunct: the concrete sequence `[99999, 1, 20]` with identifier
word 99999 yields no pair at all). -/
theorem flexPair_tight_bracket :
    (∀ (words : List Word) (tid : Word) (t : Nat),
        inferTierFlexPair words tid = some t →
          (t = 10 ∨ t = 20) ∧
            ∃ tidIdx i j minv, FlexAccepted words tid tidIdx i j minv t) ∧
      inferTierFlexPair [99999, 1, 20] 99999 = none := by
  constructor
  · intro words tid t h
    unfold inferTierFlexPair at h
    rcases hb : bestOf (flexCandidates words tid) with _ | b
    · rw [hb] at h; exact absurd h (by simp)
    · rw [hb] at h
      obtain ⟨s, m⟩ := b
      have hmt : m = t := by simpa using h
      subst hmt
      obtain ⟨hmem, -⟩ := bestOf_eq_some hb
      obtain ⟨tidIdx, i, j, minv, hacc, -⟩ := mem_flexCandidates.1 hmem
      exact ⟨hacc.2.2.2.2.2.2.2.2.2.1, tidIdx, i, j, minv, hacc⟩
  · decide

/-- Closed instance discharging the hypotheses of `flexPair_tight_bracket`: on
`[99999, 10, 10]` with identifier word 99999, Algorithm A returns tier 10, and the
theorem yields an accepted pair for it. -/
theorem flexPair_tight_bracket_witness :
    inferTierFlexPair [99999, 10, 10] 99999 = some 10 ∧
      ((10 = 10 ∨ 10 = 20) ∧
        ∃ tidIdx i j minv, FlexAccepted [99999, 10, 10] 99999 tidIdx i j minv 10) :=
  ⟨by decide, flexPair_tight_bracket.1 [99999, 10, 10] 99999 10 (by decide)⟩

/-- **C7**: Algorithm A returns `null` exactly when no flex pair is accepted, and when
it returns a tier `t`, `t` is the `max` of an accepted pair whose score — computed by
the explicit formula `flexScore tidIdx i j minv maxv = 10000 − 80·min(|i − tidIdx|,
|j − tidIdx|) + (25 if minv = maxv else 0) + (14 − (j − i))` — is maximal among all
accepted pairs over all identifier occurrences; min candidates decode to integers in
`[0, 30]` inside the ±40 window of an occurrence and the max lies within 14 words
forward of the min (clipped to the window), per `FlexAccepted`. -/
theorem flexPair_scoring (words : List Word) (tid : Word) :
    (inferTierFlexPair words tid = none ↔
      ∀ tidIdx i j minv maxv, ¬ FlexAccepted words tid tidIdx i j minv maxv) ∧
    ∀ t, inferTierFlexPair words tid = some t →
      ∃ tidIdx i j minv, FlexAccepted words tid tidIdx i j minv t ∧
        ∀ tidIdx' i' j' minv' maxv', FlexAccepted words tid tidIdx' i' j' minv' maxv' →
          flexScore tidIdx' i' j' minv' maxv' ≤ flexScore tidIdx i j minv t := by
  constructor
  · constructor
    · intro h tidIdx i j minv maxv hacc
      have hmem : (flexScore tidIdx i j minv maxv, maxv) ∈ flexCandidates words tid :=
        mem_flexCandidates.2 ⟨tidIdx, i, j, minv, hacc, rfl⟩
      unfold inferTierFlexPair at h
      rcases hb : bestOf (flexCandidates words tid) with _ | b
      · rw [bestOf_eq_none] at hb
        rw [hb] at hmem
        exact absurd hmem (by simp)
      · rw [hb] at h; exact absurd h (by simp)
    · intro h
      unfold inferTierFlexPair
      have : flexCandidates words tid = [] := by
        rcases hl : flexCandidates words tid with _ | ⟨⟨s, m⟩, tl⟩
        · rfl
        · have hmem : (s, m) ∈ flexCandidates words tid := by
            rw [hl]; exact List.mem_cons_self _ _
          obtain ⟨tidIdx, i, j, minv, hacc, -⟩ := mem_flexCandidates.1 hmem
          exact absurd hacc (h tidIdx i j minv m)
      rw [this]; rfl
  · intro t h
    unfold inferTierFlexPair at h
    rcases hb : bestOf (flexCandidates words tid) with _ | b
    · rw [hb] at h; exact absurd h (by simp)
    · rw [hb] at h
      obtain ⟨s, m⟩ := b
      have hmt : m = t := by simpa using h
      subst hmt
      obtain ⟨hmem, hmax⟩ := bestOf_eq_some hb
      obtain ⟨tidIdx, i, j, minv, hacc, hs⟩ := mem_flexCandidates.1 hmem
      refine ⟨tidIdx, i, j, minv, hacc, ?_⟩
      intro tidIdx' i' j' minv' maxv' hacc'
      have hmem' : (flexScore tidIdx' i' j' minv' maxv', maxv') ∈ flexCandidates words tid :=
        mem_flexCandidates.2 ⟨tidIdx', i', j', minv', hacc', rfl⟩
      have := hmax _ hmem'
      simpa [← hs] using this

/-- Closed instance discharging the hypotheses of `flexPair_scoring`: on
`[99999, 10, 10]` with identifier word 99999, Algorithm A returns tier 10 and the
theorem delivers a maximally-scored accepted pair. -/
theorem flexPair_scoring_witness :
    inferTierFlexPair [99999, 10, 10] 99999 = some 10 ∧
      ∃ tidIdx i j minv, FlexAccepted [99999, 10, 10] 99999 tidIdx i j minv 10 ∧
        ∀ tidIdx' i' j' minv' maxv',
          FlexAccepted [99999, 10, 10] 99999 tidIdx' i' j' minv' maxv' →
            flexScore tidIdx' i' j' minv' maxv' ≤ flexScore tidIdx i j minv 10 :=
  ⟨by decide, (flexPair_scoring [99999, 10, 10] 99999).2 10 (by decide)⟩

/-- **C2 (counterexample)**: the claim "if both 10 and 20 occur within the ±40-word
fallback window around an identifier occurrence and no valid flex pair exists, the
engine returns unknown" is false as stated: in `c2words` the identifier word 99999
occurs at index 10, whose window contains both a 10 and a 20, and no flex pair is
accepted anywhere (`inferTierFlexPair = none`), yet the engine returns tier 10 —
the fallback skips the ambiguous occurrence at index 10 (`continue`) and resolves from
the occurrence at index 55, whose window contains only the 10. -/
theorem noGuess_counterexample :
    inferTierFlexPair c2words 99999 = none ∧
    10 ∈ tidIdxsOf c2words 99999 ∧
    ((windowRange c2words 10).any
      (fun i => wordToSmallInt (c2words.getD i 0) == some 10)) = true ∧
    ((windowRange c2words 10).any
      (fun i => wordToSmallInt (c2words.getD i 0) == some 20)) = true ∧
    resolveTier c2words 99999 = some 10 := by
  refine ⟨by decide, ?_, by decide, by decide, by decide⟩
  rw [mem_tidIdxsOf]; decide

/-- **C2 (amended)**: if no flex pair is accepted and *every* identifier occurrence has
both a 10 and a 20 inside its ±40-word window, the engine (Algorithm A then
Algorithm B) returns `null` — never 10 and never 20.  (The amendment restricts the
ambiguity hypothesis from "some occurrence's window" to "every occurrence's window";
`noGuess_counterexample` shows the original reading fails when a later occurrence's
window is unambiguous.) -/
theorem noGuess_amended (words : List Word) (tid : Word)
    (hflex : inferTierFlexPair words tid = none)
    (hamb : ∀ tidIdx ∈ tidIdxsOf words tid,
      ((windowRange words tidIdx).any
        (fun i => wordToSmallInt (words.getD i 0) == some 10)) = true ∧
      ((windowRange words tidIdx).any
        (fun i => wordToSmallInt (words.getD i 0) == some 20)) = true) :
    resolveTier words tid = none := by
  unfold resolveTier
  rw [hflex]
  have hnone : inferTierNearestUnambiguous words tid = none := by
    unfold inferTierNearestUnambiguous
    rw [List.findSome?_eq_none_iff]
    intro tidIdx ht
    obtain ⟨h10, h20⟩ := hamb tidIdx ht
    simp only [h10, h20, Bool.and_self, if_pos]
  rw [hnone]
  simp

/-- Closed instance discharging the hypotheses of `noGuess_amended`: on
`[99999, 10, 20]` (single identifier occurrence, both 10 and 20 in its window, no
accepted flex pair since the drift 20 − 10 exceeds 4) the engine returns `null`. -/
theorem noGuess_amended_witness :
    inferTierFlexPair [99999, 10, 20] 99999 = none ∧
      resolveTier [99999, 10, 20] 99999 = none :=
  ⟨by decide, noGuess_amended [99999, 10, 20] 99999 (by decide) (by decide)⟩

theorem scanAux_eq_scanChunks (getLogs : Int → Int → Except String (List Log))
    (tid : Word) (start : Int) (chunk : Nat) :
    ∀ (fuel : Nat) (toBlock : Int),
      scanAux getLogs tid start chunk fuel toBlock =
        scanChunks getLogs tid (chunkList start chunk fuel toBlock) := by
  intro fuel
  induction fuel with
  | zero => intro toBlock; rfl
  | succ f ih =>
    intro toBlock
    rw [scanAux, chunkList]
    by_cases h : toBlock < start
    · rw [if_pos h, if_pos h]; rfl
    · rw [if_neg h, if_neg h]
      rw [scanChunks]
      rcases getLogs (max start (toBlock - chunk + 1)) toBlock with e | logs
      · rfl
      · dsimp only
        rcases chunkHit tid logs with _ | ⟨t, blk⟩
        · exact ih (toBlock - chunk)
        · rfl

theorem chunkList_head_snd (start : Int) (chunk : Nat) :
    ∀ (fuel : Nat) (toBlock : Int) (p : Int × Int) (rest : List (Int × Int)),
      chunkList start chunk fuel toBlock = p :: rest → p.2 = toBlock := by
  intro fuel toBlock p rest h
  cases fuel with
  | zero => exact absurd h (by simp [chunkList])
  | succ f =>
    rw [chunkList] at h
    by_cases hlt : toBlock < start
    · rw [if_pos hlt] at h; exact absurd h (by simp)
    · rw [if_neg hlt] at h
      injection h with h1 h2
      rw [← h1]

theorem chunkList_cover (start : Int) (chunk : Nat) (hc : 0 < chunk) :
    ∀ (fuel : Nat) (toBlock : Int), toBlock - start < (fuel : Int) →
      ∀ b : Int, (start ≤ b ∧ b ≤ toBlock) ↔
        ∃ p ∈ chunkList start chunk fuel toBlock, p.1 ≤ b ∧ b ≤ p.2 := by
  intro fuel
  induction fuel with
  | zero =>
    intro toBlock hf b
    simp only [chunkList, List.not_mem_nil, false_and, exists_false, iff_false]
    omega
  | succ f ih =>
    intro toBlock hf b
    rw [chunkList]
    by_cases h : toBlock < start
    · rw [if_pos h]
      simp only [List.not_mem_nil, false_and, exists_false, iff_false]
      omega
    · rw [if_neg h]
      have ihb := ih (toBlock - chunk) (by omega) b
      constructor
      · rintro ⟨hb1, hb2⟩
        by_cases hbc : b ≤ toBlock - chunk
        · obtain ⟨p, hp, hpb⟩ := ihb.1 ⟨hb1, hbc⟩
          exact ⟨p, List.mem_cons_of_mem _ hp, hpb⟩
        · exact ⟨(max start (toBlock - chunk + 1), toBlock),
            List.mem_cons_self _ _, by constructor <;> simp <;> omega⟩
      · rintro ⟨p, hp, hpb⟩
        rcases List.mem_cons.1 hp with rfl | hp'
        · simp only [le_max_iff] at hpb
          omega
        · have := ihb.2 ⟨p, hp', hpb⟩
          omega

theorem chunkList_chain (start : Int) (chunk : Nat) :
    ∀ (fuel : Nat) (toBlock : Int),
      (chunkList start chunk fuel toBlock).Chain' (fun p q => q.2 < p.1) := by
  intro fuel
  induction fuel with
  | zero => intro toBlock; simp [chunkList]
  | succ f ih =>
    intro toBlock
    rw [chunkList]
    by_cases h : toBlock < start
    · rw [if_pos h]; simp
    · rw [if_neg h]
      rw [List.chain'_cons']
      refine ⟨?_, ih (toBlock - chunk)⟩
      intro q hq
      rcases hrest : chunkList start chunk f (toBlock - chunk) with _ | ⟨p', rest'⟩
      · rw [hrest] at hq; exact absurd hq (by simp)
      · rw [hrest] at hq
        simp only [List.head?_cons, Option.mem_def, Option.some.injEq] at hq
        have h2 := chunkList_head_snd start chunk f (toBlock - chunk) p' rest' hrest
        rw [← hq, h2]
        simp only [lt_max_iff]
        omega

theorem scanChunks_ok (logsFn : Int → Int → List Log) (tid : Word) :
    ∀ ranges : List (Int × Int),
      scanChunks (fun f t => .ok (logsFn f t)) tid ranges =
        (match ranges.findSome? (fun p => chunkHit tid (logsFn p.1 p.2)) with
         | some (t, blk) => ⟨some t, some blk, none⟩
         | none => ⟨none, none, none⟩) := by
  intro ranges
  induction ranges with
  | nil => rfl
  | cons p rest ih =>
    rw [scanChunks, List.findSome?_cons]
    dsimp only
    rcases chunkHit tid (logsFn p.1 p.2) with _ | ⟨t, blk⟩
    · exact ih
    · rfl

theorem findSome?_flatten_chunks (logsFn : Int → Int → List Log) (tid : Word) :
    ∀ ranges : List (Int × Int),
      ranges.findSome? (fun p => chunkHit tid (logsFn p.1 p.2)) =
        ((ranges.map (fun p => (logsFn p.1 p.2).reverse)).flatten).findSome? (logHit tid) := by
  intro ranges
  induction ranges with
  | nil => rfl
  | cons p rest ih =>
    rw [List.map_cons, List.flatten_cons, List.findSome?_append, List.findSome?_cons, ← ih]
    have hrev : List.findSome? (logHit tid) (logsFn p.1 p.2).reverse =
        chunkHit tid (logsFn p.1 p.2) := rfl
    rw [hrev]
    rcases chunkHit tid (logsFn p.1 p.2) with _ | hit
    · rfl
    · rfl

theorem scanChunks_agree (tid : Word) (logsFn logsFn₂ : Int → Int → List Log) :
    ∀ ranges : List (Int × Int),
      (∀ j, j ≤ firstHitChunkIdx logsFn tid ranges →
        ∀ p, ranges[j]? = some p → logsFn₂ p.1 p.2 = logsFn p.1 p.2) →
      scanChunks (fun f t => .ok (logsFn₂ f t)) tid ranges =
        scanChunks (fun f t => .ok (logsFn f t)) tid ranges := by
  intro ranges
  induction ranges with
  | nil => intro _; rfl
  | cons p rest ih =>
    intro hagree
    have h0 : logsFn₂ p.1 p.2 = logsFn p.1 p.2 :=
      hagree 0 (Nat.zero_le _) p (by simp)
    rw [scanChunks, scanChunks, h0]
    dsimp only
    rcases hhit : chunkHit tid (logsFn p.1 p.2) with _ | ⟨t, blk⟩
    · have hidx : firstHitChunkIdx logsFn tid (p :: rest) =
          firstHitChunkIdx logsFn tid rest + 1 := by
        unfold firstHitChunkIdx
        rw [List.findIdx_cons]
        simp [hhit]
      have hagree2 : ∀ j, j ≤ firstHitChunkIdx logsFn tid rest →
          ∀ q, rest[j]? = some q → logsFn₂ q.1 q.2 = logsFn q.1 q.2 := by
        intro j hj q hq
        exact hagree (j + 1) (by omega) q (by simpa using hq)
      exact ih hagree2
    · rfl

theorem scan_error_shape (getLogs : Int → Int → Except String (List Log)) (tid : Word)
    (start : Int) (chunk : Nat) :
    ∀ (fuel : Nat) (toBlock : Int) (e : String),
      (scanAux getLogs tid start chunk fuel toBlock).error = some e →
      scanAux getLogs tid start chunk fuel toBlock = ⟨none, none, some e⟩ := by
  intro fuel
  induction fuel with
  | zero => intro toBlock e h; exact absurd h (by simp [scanAux])
  | succ f ih =>
    intro toBlock e h
    rw [scanAux] at h ⊢
    by_cases hlt : toBlock < start
    · rw [if_pos hlt] at h; exact absurd h (by simp)
    · rw [if_neg hlt] at h ⊢
      revert h
      rcases getLogs (max start (toBlock - chunk + 1)) toBlock with e' | logs
      · intro h
        dsimp only at h ⊢
        rw [Option.some.inj h]
      · intro h
        dsimp only at h ⊢
        revert h
        rcases chunkHit tid logs with _ | ⟨t, blk⟩
        · intro h
          exact ih (toBlock - chunk) e h
        · intro h
          simp at h

theorem scanChunks_error (tid : Word) :
    ∀ (ranges : List (Int × Int)) (oracle : Int → Int → Except String (List Log))
      (k : Nat) (e : String),
      (∀ j, j < k → ∀ p, ranges[j]? = some p →
        ∃ logs, oracle p.1 p.2 = .ok logs ∧ chunkHit tid logs = none) →
      (∀ p, ranges[k]? = some p → oracle p.1 p.2 = .error e) →
      k < ranges.length →
      scanChunks oracle tid ranges = ⟨none, none, some e⟩ := by
  intro ranges
  induction ranges with
  | nil => intro oracle k e _ _ hk; exact absurd hk (by simp)
  | cons p rest ih =>
    intro oracle k e hpre herr hk
    cases k with
    | zero =>
      have := herr p (by simp)
      rw [scanChunks, this]
    | succ k' =>
      obtain ⟨logs, hok, hnone⟩ := hpre 0 (Nat.zero_lt_succ _) p (by simp)
      rw [scanChunks, hok]
      dsimp only
      rw [hnone]
      refine ih oracle k' e ?_ ?_ (by simpa using hk)
      · intro j hj q hq
        exact hpre (j + 1) (by omega) q (by simpa using hq)
      · intro q hq
        exact herr q (by simpa using hq)

theorem scanChunks_exhaust (tid : Word) :
    ∀ (ranges : List (Int × Int)) (oracle : Int → Int → Except String (List Log)),
      (∀ (j : Nat) (p : Int × Int), ranges[j]? = some p →
        ∃ logs, oracle p.1 p.2 = .ok logs ∧ chunkHit tid logs = none) →
      scanChunks oracle tid ranges = ⟨none, none, none⟩ := by
  intro ranges
  induction ranges with
  | nil => intro oracle _; rfl
  | cons p rest ih =>
    intro oracle hall
    obtain ⟨logs, hok, hnone⟩ := hall 0 p (by simp)
    rw [scanChunks, hok]
    dsimp only
    rw [hnone]
    refine ih oracle ?_
    intro j q hq
    exact hall (j + 1) q (by simpa using hq)

/-- **C8**: for every scan invocation `(winBlock, lookback, chunk)` with `chunk > 0`:
(1) the queried chunk ranges exactly cover `[max 0 (winBlock − lookback), winBlock]`;
(2) they are processed strictly from the most recent toward the oldest
(each later range lies entirely below the earlier one);
(3) with a successful log oracle, the scan result is the first tier-yielding log of the
logical stream — chunks most recent first, logs within a chunk newest to oldest — with
that log's tier and block number, or the unknown result when no log yields a tier; and
(4) the result only depends on the oracle's answers for chunks up to and including the
first chunk containing a hit: no chunk or log older than the match is ever decoded. -/
theorem scan_order_and_short_circuit (logsFn : Int → Int → List Log) (tid : Word)
    (winBlock lookback chunk : Nat) (hc : 0 < chunk) :
    (∀ b : Int, (((winBlock - lookback : Nat) : Int) ≤ b ∧ b ≤ (winBlock : Int)) ↔
        ∃ p ∈ chunkList ((winBlock - lookback : Nat) : Int) chunk (winBlock + 1)
            (winBlock : Int), p.1 ≤ b ∧ b ≤ p.2) ∧
    (chunkList ((winBlock - lookback : Nat) : Int) chunk (winBlock + 1)
        (winBlock : Int)).Chain' (fun p q => q.2 < p.1) ∧
    findTierByLookback (fun f t => .ok (logsFn f t)) tid winBlock lookback chunk =
      (match (scanStreamSpec logsFn ((winBlock - lookback : Nat) : Int) chunk
          (winBlock + 1) (winBlock : Int)).findSome? (logHit tid) with
       | some (t, blk) => ⟨some t, some blk, none⟩
       | none => ⟨none, none, none⟩) ∧
    ∀ logsFn₂ : Int → Int → List Log,
      (∀ j, j ≤ firstHitChunkIdx logsFn tid
          (chunkList ((winBlock - lookback : Nat) : Int) chunk (winBlock + 1)
            (winBlock : Int)) →
        ∀ p, (chunkList ((winBlock - lookback : Nat) : Int) chunk (winBlock + 1)
            (winBlock : Int))[j]? = some p →
          logsFn₂ p.1 p.2 = logsFn p.1 p.2) →
      findTierByLookback (fun f t => .ok (logsFn₂ f t)) tid winBlock lookback chunk =
        findTierByLookback (fun f t => .ok (logsFn f t)) tid winBlock lookback chunk := by
  refine ⟨?_, ?_, ?_, ?_⟩
  · intro b
    refine chunkList_cover _ chunk hc (winBlock + 1) (winBlock : Int) ?_ b
    have : (0 : Int) ≤ ((winBlock - lookback : Nat) : Int) := Int.ofNat_nonneg _
    omega
  · exact chunkList_chain _ chunk (winBlock + 1) (winBlock : Int)
  · unfold findTierByLookback
    rw [scanAux_eq_scanChunks, scanChunks_ok, findSome?_flatten_chunks]
    rfl
  · intro logsFn₂ hagree
    unfold findTierByLookback
    rw [scanAux_eq_scanChunks, scanAux_eq_scanChunks]
    exact scanChunks_agree tid logsFn logsFn₂ _ hagree

/-- Log oracle for the scan witnesses: one decodable log in the chunk starting at
block 5, nothing elsewhere. -/
def witLogsFn : Int → Int → List Log :=
  fun f _ => if f = 5 then [⟨[99999, 20], [], 7⟩] else []

/-- Closed instance discharging the hypotheses of `scan_order_and_short_circuit` at
`winBlock = 9`, `lookback = 9`, `chunk = 5` with oracle `witLogsFn`: the chunk ranges
are strictly descending, and the scan returns tier 20 at block 7 from the most recent
chunk. -/
theorem scan_order_witness :
    (0 : Nat) < 5 ∧
      (chunkList ((9 - 9 : Nat) : Int) 5 (9 + 1) (9 : Int)).Chain' (fun p q => q.2 < p.1) ∧
      findTierByLookback (fun f t => .ok (witLogsFn f t)) 99999 9 9 5 =
        ⟨some 20, some 7, none⟩ :=
  ⟨by decide, (scan_order_and_short_circuit witLogsFn 99999 9 9 5 (by decide)).2.1,
    by decide⟩

/-- **C9**: during a scan, the chunks are consulted in scan order and (first conjunct)
if every chunk before index `k` succeeds without a hit and chunk `k` fails with message
`e`, the whole scan for that identifier returns `⟨tier := none, matchedBlock := none,
error := some e⟩` — the hypotheses constrain the oracle only on chunks up to `k`, so the
result is independent of anything older: there is no skip-and-continue past an error;
(second conjunct) if every chunk succeeds and none yields a hit, the scan returns the
distinct exhaustion result `⟨none, none, none⟩`, whose `error` field is `none` rather
than `some e`. -/
theorem scan_error_aborts_vs_exhaustion (tid : Word) (winBlock lookback chunk : Nat) :
    (∀ (oracle : Int → Int → Except String (List Log)) (k : Nat) (e : String),
      (∀ j, j < k → ∀ p, (chunkList ((winBlock - lookback : Nat) : Int) chunk
          (winBlock + 1) (winBlock : Int))[j]? = some p →
        ∃ logs, oracle p.1 p.2 = .ok logs ∧ chunkHit tid logs = none) →
      (∀ p, (chunkList ((winBlock - lookback : Nat) : Int) chunk (winBlock + 1)
          (winBlock : Int))[k]? = some p → oracle p.1 p.2 = .error e) →
      k < (chunkList ((winBlock - lookback : Nat) : Int) chunk (winBlock + 1)
          (winBlock : Int)).length →
      findTierByLookback oracle tid winBlock lookback chunk = ⟨none, none, some e⟩) ∧
    (∀ oracle : Int → Int → Except String (List Log),
      (∀ (j : Nat) (p : Int × Int), (chunkList ((winBlock - lookback : Nat) : Int) chunk
          (winBlock + 1) (winBlock : Int))[j]? = some p →
        ∃ logs, oracle p.1 p.2 = .ok logs ∧ chunkHit tid logs = none) →
      findTierByLookback oracle tid winBlock lookback chunk = ⟨none, none, none⟩) := by
  constructor
  · intro oracle k e hpre herr hk
    unfold findTierByLookback
    rw [scanAux_eq_scanChunks]
    exact scanChunks_error tid _ oracle k e hpre herr hk
  · intro oracle hall
    unfold findTierByLookback
    rw [scanAux_eq_scanChunks]
    exact scanChunks_exhaust tid _ oracle hall

/-- Closed instance discharging the hypotheses of `scan_error_aborts_vs_exhaustion` at
`winBlock = 9`, `lookback = 9`, `chunk = 5`: an oracle failing on the very first
(most recent) chunk yields the error result, and an oracle returning no logs anywhere
yields the exhaustion result. -/
theorem scan_error_witness :
    findTierByLookback (fun _ _ => Except.error "boom") 99999 9 9 5 =
        ⟨none, none, some "boom"⟩ ∧
      findTierByLookback (fun _ _ => Except.ok ([] : List Log)) 99999 9 9 5 =
        ⟨none, none, none⟩ :=
  ⟨(scan_error_aborts_vs_exhaustion 99999 9 9 5).1 (fun _ _ => Except.error "boom") 0
      "boom" (fun j hj => absurd hj (by omega)) (fun _ _ => rfl) (by decide),
    (scan_error_aborts_vs_exhaustion 99999 9 9 5).2 (fun _ _ => Except.ok [])
      (fun _ _ _ => ⟨[], rfl, rfl⟩)⟩

theorem findTier_error_shape (getLogs : Int → Int → Except String (List Log))
    (tid : Word) (winBlock lookback chunk : Nat) (e : String)
    (h : (findTierByLookback getLogs tid winBlock lookback chunk).error = some e) :
    findTierByLookback getLogs tid winBlock lookback chunk = ⟨none, none, some e⟩ :=
  scan_error_shape getLogs tid _ chunk (winBlock + 1) (winBlock : Int) e h

/-- **C3**: a scan that ended in a retrieval error is never persisted as a confirmed
unknown: the entry the main loop writes for it records a `null` tier *and* the error
message, and no later run — whatever its `USE_CACHE` setting — treats that entry as a
cache hit, so the identifier is always re-resolved rather than mistaken for a confirmed
absence. -/
theorem scanError_not_cached_as_confirmed
    (getLogs : Int → Int → Except String (List Log)) (tidW : Word)
    (winBlock lookback chunk : Nat) (useCache : Bool)
    (cache : List (String × CacheVal)) (tidKey : String) (wb : Int) (now : String)
    (e : String)
    (herr : (findTierByLookback getLogs tidW winBlock lookback chunk).error = some e)
    (hmiss : isCacheHit useCache (alGet cache tidKey) = false) :
    alGet (processTid useCache cache tidKey wb
        (findTierByLookback getLogs tidW winBlock lookback chunk) now) tidKey =
      some (.obj (entryFromScan
        (findTierByLookback getLogs tidW winBlock lookback chunk) wb now)) ∧
    (entryFromScan (findTierByLookback getLogs tidW winBlock lookback chunk)
        wb now).tier = none ∧
    (entryFromScan (findTierByLookback getLogs tidW winBlock lookback chunk)
        wb now).error = some e ∧
    ∀ u : Bool, isCacheHit u (alGet (processTid useCache cache tidKey wb
        (findTierByLookback getLogs tidW winBlock lookback chunk) now) tidKey) = false := by
  have hr := findTier_error_shape getLogs tidW winBlock lookback chunk e herr
  rw [hr] at *
  have hget : alGet (processTid useCache cache tidKey wb
      (⟨none, none, some e⟩ : ScanResult) now) tidKey =
      some (.obj (entryFromScan (⟨none, none, some e⟩ : ScanResult) wb now)) := by
    unfold processTid
    rw [if_neg (by rw [hmiss]; exact Bool.false_ne_true)]
    rw [alGet_alSet]
    simp
  refine ⟨hget, by rfl, by rfl, ?_⟩
  intro u
  rw [hget]
  simp [isCacheHit, cachedTierOf, entryFromScan]

/-- Closed instance discharging the hypotheses of `scanError_not_cached_as_confirmed`:
an always-failing oracle at `winBlock = 9`, `lookback = 9`, `chunk = 5`, an empty cache
and key `"5"`. -/
theorem scanError_not_cached_witness :
    (findTierByLookback (fun _ _ => Except.error "boom") 99999 9 9 5).error =
        some "boom" ∧
      (entryFromScan (findTierByLookback (fun _ _ => Except.error "boom") 99999 9 9 5)
          7 "T").tier = none ∧
      (entryFromScan (findTierByLookback (fun _ _ => Except.error "boom") 99999 9 9 5)
          7 "T").error = some "boom" ∧
      ∀ u : Bool, isCacheHit u (alGet (processTid true [] "5" 7
          (findTierByLookback (fun _ _ => Except.error "boom") 99999 9 9 5) "T") "5") =
        false := by
  have h := scanError_not_cached_as_confirmed (fun _ _ => Except.error "boom") 99999
    9 9 5 true [] "5" 7 "T" "boom" (by decide) (by decide)
  exact ⟨by decide, h.2.1, h.2.2.1, h.2.2.2⟩

/-- **C4**: cache version isolation.  (1) A cache hit requires the stored entry's
`decodeVersion` to equal the engine's current `DECODE_VERSION`, so an entry stored
under any other version is never used.  (2)–(3) Legacy shapes — a bare tier integer, or
an object whose version field is absent — are migrated on load with the sentinel
`decodeVersion = "unknown"`.  (4)–(5) The sentinel differs from the current version, so
such entries can never be hits.  (6) On any miss the main loop re-resolves and
overwrites the entry with one carrying the current `DECODE_VERSION`. -/
theorem cache_version_isolation :
    (∀ (u : Bool) (cached : Option CacheVal), isCacheHit u cached = true →
        cachedVersionOf cached = some DECODE_VERSION) ∧
    (∀ (now : String) (n : Int) (o : RawObj), migrateVal now (.num n) = some o →
        o.decodeVersion = some "unknown") ∧
    (∀ (now : String) (v : RawObj), v.decodeVersion = none →
        ∀ o : RawObj, migrateVal now (.obj v) = some o →
          o.decodeVersion = some "unknown") ∧
    ("unknown" ≠ DECODE_VERSION) ∧
    (∀ (u : Bool) (cached : Option CacheVal), cachedVersionOf cached = some "unknown" →
        isCacheHit u cached = false) ∧
    (∀ (useCache : Bool) (cache : List (String × CacheVal)) (tid : String) (wb : Int)
        (r : ScanResult) (now : String),
      isCacheHit useCache (alGet cache tid) = false →
        alGet (processTid useCache cache tid wb r now) tid =
            some (.obj (entryFromScan r wb now)) ∧
          (entryFromScan r wb now).decodeVersion = some DECODE_VERSION) := by
  refine ⟨?_, ?_, ?_, by decide, ?_, ?_⟩
  · intro u cached h
    unfold isCacheHit at h
    simp only [Bool.and_eq_true, beq_iff_eq] at h
    exact h.2
  · intro now n o h
    simp only [migrateVal] at h
    by_cases hn : n = 10 ∨ n = 20
    · rw [if_pos hn] at h
      rw [← Option.some.inj h]
    · rw [if_neg hn] at h
      exact absurd h (by simp)
  · intro now v hv o h
    simp only [migrateVal] at h
    rw [← Option.some.inj h]
    simp [hv, jsOr]
  · intro u cached h
    unfold isCacheHit
    rw [h]
    have : (some "unknown" == some DECODE_VERSION) = false := by decide
    rw [this]
    simp
  · intro useCache cache tid wb r now hmiss
    constructor
    · unfold processTid
      rw [if_neg (by rw [hmiss]; exact Bool.false_ne_true)]
      rw [alGet_alSet]
      simp
    · unfold entryFromScan
      by_cases hr : r.tier = some 10 ∨ r.tier = some 20
      · rw [if_pos hr]
      · rw [if_neg hr]

/-- Closed instance discharging the hypotheses of `cache_version_isolation`: a current-
version entry with tier 10 is a hit and its version is the current one; an old-version
entry (sentinel `"unknown"`) is never a hit; a miss on an empty cache is overwritten
with a current-version entry. -/
theorem cache_version_isolation_witness :
    isCacheHit true (some entryHit10) = true ∧
      cachedVersionOf (some entryHit10) = some DECODE_VERSION ∧
      isCacheHit true (some entryOldVersion) = false ∧
      alGet (processTid true [] "5" 7 (⟨none, none, none⟩ : ScanResult) "T") "5" =
        some (.obj (entryFromScan (⟨none, none, none⟩ : ScanResult) 7 "T")) :=
  ⟨by decide,
    cache_version_isolation.1 true _ (by decide),
    cache_version_isolation.2.2.2.2.1 true _ (by decide),
    (cache_version_isolation.2.2.2.2.2 true [] "5" 7 ⟨none, none, none⟩ "T"
      (by decide)).1⟩

/-- **C10**: a cached entry whose tier is not exactly 10 or 20 (in particular the
null-tier entries written after an errored or exhausted scan) is always treated as a
cache miss — for every `USE_CACHE` setting and in particular even when its
`decodeVersion` equals the current one — and the subsequent iteration re-scans and
overwrites it with the fresh scan's entry. -/
theorem unknownTier_entry_always_miss
    (u : Bool) (cache : List (String × CacheVal)) (tid : String) (cached : CacheVal)
    (wb : Int) (r : ScanResult) (now : String)
    (hc : alGet cache tid = some cached)
    (h10 : cachedTierOf (some cached) ≠ some 10)
    (h20 : cachedTierOf (some cached) ≠ some 20) :
    isCacheHit u (alGet cache tid) = false ∧
    alGet (processTid u cache tid wb r now) tid = some (.obj (entryFromScan r wb now)) := by
  have hmiss : isCacheHit u (alGet cache tid) = false := by
    unfold isCacheHit
    rw [hc]
    have e10 : (cachedTierOf (some cached) == some 10) = false := by
      simpa using h10
    have e20 : (cachedTierOf (some cached) == some 20) = false := by
      simpa using h20
    rw [e10, e20]
    simp
  refine ⟨hmiss, ?_⟩
  unfold processTid
  rw [if_neg (by rw [hmiss]; exact Bool.false_ne_true)]
  rw [alGet_alSet]
  simp

/-- Closed instance discharging the hypotheses of `unknownTier_entry_always_miss`: a
null-tier entry carrying the *current* decode version, with caching enabled, is a miss
and gets overwritten. -/
theorem unknownTier_entry_witness :
    isCacheHit true (alGet [("5", entryNullTier)] "5") = false ∧
      alGet (processTid true [("5", entryNullTier)] "5" 7
        (⟨none, none, none⟩ : ScanResult) "T") "5" =
        some (.obj (entryFromScan (⟨none, none, none⟩ : ScanResult) 7 "T")) :=
  unknownTier_entry_always_miss true [("5", entryNullTier)] "5" entryNullTier 7
    ⟨none, none, none⟩ "T" (by decide) (by decide) (by decide)

end Post22m

/-- **C1 (counterexample)**: the claim "in every produced MatchRecord, if the winner
field is non-null then it equals playerA or playerB" is false for
`extract-matches-from-topic0.updated.js`: with a hint log carrying id 7 and winner 5
and a match log carrying id 7 and players 8 and 9, the id-keyed join attaches winner 5,
which is neither player (the script itself only counts such rows in its
`winner_not_AorB` statistic). -/
theorem winner_membership_counterexample :
    (ExtractUpdated.joinUpdated [ExtractUpdated.c1match] [ExtractUpdated.c1hint]).map
        (fun r => (r.winner, r.playerA, r.playerB)) = [(some 5, 8, 9)] ∧
      (5 : Nat) ≠ 8 ∧ (5 : Nat) ≠ 9 := by
  decide

/-- **C1 (amended)**: in the joiner concatenated into
`pull-wins-tier-from-logs-post22m-lookback.js`, a non-null winner always equals
`playerA` or `playerB` (first conjunct); in
`extract-matches-from-topic0.updated.js`, when the identifier-key lookup misses and the
match's transaction carries two or more distinct hinted winner addresses, the winner
stays null (second conjunct) — but, per `winner_membership_counterexample`, the
updated joiner's id-keyed hit is attached without any check against the players. -/
theorem winner_membership_amended :
    (∀ (matchLogs hintLogs : List ExtractConcat.Log) (r : ExtractConcat.MatchRecord),
        r ∈ ExtractConcat.joinConcat matchLogs hintLogs →
        ∀ w, r.winner = some w → r.playerA = some w ∨ r.playerB = some w) ∧
    (∀ (matchLogs hintLogs : List ExtractUpdated.Log) (r : ExtractUpdated.MatchRecord)
        (s : List Nat),
        r ∈ ExtractUpdated.joinUpdated matchLogs hintLogs →
        alGet (ExtractUpdated.pass1 hintLogs).1 r.matchId = none →
        alGet (ExtractUpdated.pass1 hintLogs).2 r.txHash = some s →
        2 ≤ s.length → r.winner = none) := by
  constructor
  · intro matchLogs hintLogs r hr w hw
    unfold ExtractConcat.joinConcat at hr
    rw [List.mem_map] at hr
    obtain ⟨log, hlog, rfl⟩ := hr
    dsimp only at hw ⊢
    revert hw
    rcases log.topics[1]? with _ | mid
    · intro hw; exact absurd hw (by simp)
    · dsimp only
      by_cases hm : mid = 0
      · rw [if_pos hm]; intro hw; exact absurd hw (by simp)
      · rw [if_neg hm]
        rcases alGet (ExtractConcat.pass1 hintLogs) (log.txHash, mid) with _ | w'
        · intro hw; exact absurd hw (by simp)
        · dsimp only
          by_cases hp : (log.topics[2]?).bind ExtractConcat.topicToAddress = some w' ∨
              (log.topics[3]?).bind ExtractConcat.topicToAddress = some w'
          · rw [if_pos hp]
            intro hw
            have hww : w' = w := Option.some.inj hw
            subst hww
            exact hp
          · rw [if_neg hp]; intro hw; exact absurd hw (by simp)
  · intro matchLogs hintLogs r s hr hid htx hlen
    unfold ExtractUpdated.joinUpdated at hr
    rw [List.mem_filterMap] at hr
    obtain ⟨log, hlog, hsome⟩ := hr
    revert hsome
    by_cases h4 : log.topics.length = 4
    · rw [if_pos h4]
      intro hsome
      obtain rfl := Option.some.inj hsome
      dsimp only at hid htx hlen ⊢
      rw [hid]
      dsimp only
      by_cases htxne : log.txHash ≠ ""
      · rw [if_pos htxne, htx]
        dsimp only
        have hlen1 : ¬ s.length = 1 := by omega
        rw [if_neg hlen1]
      · rw [if_neg htxne]
    · rw [if_neg h4]; intro hsome; exact absurd hsome (by simp)

/-- Closed instance discharging the hypotheses of `winner_membership_amended`: the
concatenated joiner attaches winner 8 (= playerA) for a flag-1 hint with matching
composite key, and the updated joiner leaves the winner null when the id lookup misses
and tx `"t"` carries the two distinct hinted winners 5 and 6. -/
theorem winner_membership_witness :
    ExtractConcat.c1crec ∈
        ExtractConcat.joinConcat [ExtractConcat.c1cmatch] [ExtractConcat.c1chint] ∧
      ExtractConcat.c1crec.winner = some 8 ∧
      (ExtractConcat.c1crec.playerA = some 8 ∨ ExtractConcat.c1crec.playerB = some 8) ∧
      ExtractUpdated.c1urec ∈
        ExtractUpdated.joinUpdated [ExtractUpdated.c1umatch]
          [ExtractUpdated.c1uh1, ExtractUpdated.c1uh2] ∧
      ExtractUpdated.c1urec.winner = none :=
  ⟨by decide, by decide,
    winner_membership_amended.1 [ExtractConcat.c1cmatch] [ExtractConcat.c1chint]
      ExtractConcat.c1crec (by decide) 8 (by decide),
    by decide,
    winner_membership_amended.2 [ExtractUpdated.c1umatch]
      [ExtractUpdated.c1uh1, ExtractUpdated.c1uh2] ExtractUpdated.c1urec [5, 6]
      (by decide) (by decide) (by decide) (by decide)⟩

theorem firstValidHint_cons (log : ExtractConcat.Log) (tl : List ExtractConcat.Log)
    (key : String × Nat) :
    ExtractConcat.firstValidHint (log :: tl) key =
      (match ExtractConcat.validHint log with
       | none => ExtractConcat.firstValidHint tl key
       | some kw =>
         if kw.1 = key then some kw.2 else ExtractConcat.firstValidHint tl key) := by
  unfold ExtractConcat.firstValidHint
  rw [List.filterMap_cons]
  rcases hv : ExtractConcat.validHint log with _ | ⟨k, w⟩
  · rfl
  · dsimp only
    rw [List.find?_cons]
    by_cases hk : k = key
    · subst hk
      simp
    · have hbeq : (((k, w).1 == key)) = false := by
        simp [hk]
      rw [hbeq]
      simp [hk]

theorem alGet_pass1_foldl :
    ∀ (hintLogs : List ExtractConcat.Log) (m : List ((String × Nat) × Nat))
      (key : String × Nat),
      alGet (hintLogs.foldl ExtractConcat.pass1Step m) key =
        (match alGet m key with
         | some v => some v
         | none => ExtractConcat.firstValidHint hintLogs key) := by
  intro hintLogs
  induction hintLogs with
  | nil =>
    intro m key
    rw [List.foldl_nil]
    rcases h : alGet m key with _ | v
    · rfl
    · rfl
  | cons log tl ih =>
    intro m key
    rw [List.foldl_cons, ih (ExtractConcat.pass1Step m log) key, firstValidHint_cons]
    rcases hv : ExtractConcat.validHint log with _ | ⟨k, w⟩
    · rw [show ExtractConcat.pass1Step m log = m from by
        unfold ExtractConcat.pass1Step; rw [hv]]
    · rw [show ExtractConcat.pass1Step m log =
          (if alGet m k = none then alSet m k w else m) from by
        unfold ExtractConcat.pass1Step; rw [hv]]
      dsimp only
      by_cases hk : k = key
      · subst hk
        rcases halg : alGet m k with _ | v
        · rw [if_pos rfl, alGet_alSet, if_pos rfl]
          simp
        · rw [if_neg (fun h => Option.noConfusion h), halg]
      · rcases halg : alGet m k with _ | v
        · rw [if_pos rfl, alGet_alSet,
            if_neg (fun h : key = k => hk h.symm), if_neg hk]
        · rw [if_neg (fun h => Option.noConfusion h), if_neg hk]

/-- **C5 (counterexample)**: the claim fails for Pass 1 of
`extract-matches-from-topic0.updated.js`: the hints `c5h1` (id 7, winner 5, flag word
0, tx `"t1"`) and `c5h2` (id 7, winner 6, flag word 0, tx `"t2"`) both carry a
secondary flag word different from the confirmed sentinel 1 yet are indexed; the index
is keyed by the identifier alone (the two hints from *different* transactions share one
slot); and the later hint replaces the earlier one (last-write-wins: the lookup yields
6, not 5). -/
theorem pass1_counterexample :
    alGet (ExtractUpdated.pass1 [ExtractUpdated.c5h1]).1 7 = some 5 ∧
      alGet (ExtractUpdated.pass1 [ExtractUpdated.c5h1, ExtractUpdated.c5h2]).1 7 =
        some 6 ∧
      ExtractUpdated.c5h1.data[1]? = some 0 ∧
      ExtractUpdated.c5h2.data[1]? = some 0 ∧
      ExtractUpdated.c5h1.txHash ≠ ExtractUpdated.c5h2.txHash := by
  decide

/-- **C5 (amended)**: in Pass 1 of the joiner concatenated into
`pull-wins-tier-from-logs-post22m-lookback.js`, a hint log whose secondary flag word
does not equal the confirmed sentinel 1 contributes nothing to the index (first
conjunct), and the index — keyed by the composite `(txHash, identifier)` — maps every
key to the *first* valid hint seen for it, so a later hint with the same key never
replaces an earlier one (second conjunct).  Per `pass1_counterexample`, Pass 1 of
`extract-matches-from-topic0.updated.js` instead indexes by identifier alone with
last-write-wins and no flag filter. -/
theorem pass1_flag_filter_first_write :
    (∀ (m : List ((String × Nat) × Nat)) (log : ExtractConcat.Log),
        ExtractConcat.hintFlag log ≠ some 1 → ExtractConcat.pass1Step m log = m) ∧
    (∀ (hintLogs : List ExtractConcat.Log) (key : String × Nat),
        alGet (ExtractConcat.pass1 hintLogs) key =
          ExtractConcat.firstValidHint hintLogs key) := by
  constructor
  · intro m log hf
    have hv : ExtractConcat.validHint log = none := by
      unfold ExtractConcat.validHint
      rcases h1 : log.topics[1]? with _ | mid
      · rfl
      · rcases h2 : (log.topics[2]?).bind ExtractConcat.topicToAddress with _ | wallet
        · rfl
        · rcases h3 : ExtractConcat.hintFlag log with _ | flag
          · rfl
          · have hflag : flag ≠ 1 := fun h => hf (by rw [h3, h])
            dsimp only
            by_cases hm : mid = 0
            · rw [if_pos hm]
            · rw [if_neg hm, if_pos hflag]
    unfold ExtractConcat.pass1Step
    rw [hv]
  · intro hintLogs key
    unfold ExtractConcat.pass1
    rw [alGet_pass1_foldl hintLogs [] key]
    rfl

/-- Closed instance discharging the hypotheses of `pass1_flag_filter_first_write`: the
flag-0 hint `c5chint0` is ignored, and with the two flag-1 hints `c5ch1` (winner 8)
then `c5ch2` (winner 9) under the same composite key `("t", 7)`, the index keeps the
first, winner 8. -/
theorem pass1_flag_filter_witness :
    ExtractConcat.hintFlag ExtractConcat.c5chint0 ≠ some 1 ∧
      ExtractConcat.pass1Step [] ExtractConcat.c5chint0 = [] ∧
      alGet (ExtractConcat.pass1 [ExtractConcat.c5ch1, ExtractConcat.c5ch2]) ("t", 7) =
        ExtractConcat.firstValidHint [ExtractConcat.c5ch1, ExtractConcat.c5ch2]
          ("t", 7) ∧
      ExtractConcat.firstValidHint [ExtractConcat.c5ch1, ExtractConcat.c5ch2]
          ("t", 7) = some 8 :=
  ⟨by decide,
    pass1_flag_filter_first_write.1 [] ExtractConcat.c5chint0 (by decide),
    pass1_flag_filter_first_write.2 [ExtractConcat.c5ch1, ExtractConcat.c5ch2] ("t", 7),
    by decide⟩

end Tournament
